import Mathlib

/-!
Verification of the usage-evidence-based retirement pattern in the
aws-toolbox repository, against its natural-language specification.

Each definition below is a shallow embedding of a function from the
repository's Python sources; the file name of the source is given in the
doc comment of each definition.  External API results (paginated listings,
client errors, delete outcomes) are passed in as explicit values so that
the control flow of each script becomes a pure, executable Lean function.

Timestamps are modelled as integers (seconds); Python's
`(now - t).days` is `Int.fdiv (now - t) 86400` (floor division, matching
`datetime.timedelta.days`).
-/

/-! ## KMS: kms_delete_unused_keys.py -/

/-- Whole days between two timestamps (seconds), mirroring Python's
`(datetime.now(timezone.utc) - t).days`, which floors. -/
def daysBetween (now t : Int) : Int := Int.fdiv (now - t) 86400

/-- The CloudTrail event names treated as actual key usage in
`build_key_usage_map` (kms_delete_unused_keys.py). -/
def kms_usage_events : List String :=
  ["Encrypt", "Decrypt", "GenerateDataKey", "GenerateDataKeyWithoutPlaintext", "ReEncrypt"]

/-- One entry of a CloudTrail event's `Resources` list. -/
structure TrailResource where
  resourceType : String
  resourceName : Option String
deriving DecidableEq, Repr

/-- A CloudTrail event as consumed by `build_key_usage_map`. -/
structure TrailEvent where
  eventName : String
  eventTime : Option Int
  resources : List TrailResource
deriving DecidableEq, Repr

/-- The characters after the last slash of a character list. -/
def lastSlashSegment (cs : List Char) : List Char :=
  (cs.reverse.takeWhile (fun c => c != '/')).reverse

/-- `resource_name.split("/")[-1] if "/" in resource_name else resource_name`
(kms_delete_unused_keys.py line 201). -/
def normalizeKeyId (name : String) : String :=
  if name.data.contains '/' then String.mk (lastSlashSegment name.data) else name

/-- Lookup in the usage dictionary (`key_usage_map.get(key_id)`),
modelled as an association list. -/
def mapLookup (m : List (String × Int)) (k : String) : Option Int :=
  (m.find? (fun p => p.1 == k)).map (fun p => p.2)

/-- The guarded dictionary assignment
`if key_id not in key_usage_map or event_time > key_usage_map[key_id]:
key_usage_map[key_id] = event_time` (kms_delete_unused_keys.py lines 204-205). -/
def updateUsage : List (String × Int) → String → Int → List (String × Int)
  | [], k, t => [(k, t)]
  | (k', t') :: rest, k, t =>
    if k' == k then
      (if t' < t then (k, t) :: rest else (k', t') :: rest)
    else
      (k', t') :: updateUsage rest k t

/-- Processing of one entry of an event's `Resources` list
(kms_delete_unused_keys.py lines 196-205). -/
def processResource (t : Int) (m : List (String × Int)) (r : TrailResource) : List (String × Int) :=
  if r.resourceType == "AWS::KMS::Key" then
    match r.resourceName with
    | some name => updateUsage m (normalizeKeyId name) t
    | none => m
  else m

/-- Processing of one CloudTrail event (kms_delete_unused_keys.py lines 182-205):
non-cryptographic events and events without a timestamp are skipped. -/
def processEvent (m : List (String × Int)) (e : TrailEvent) : List (String × Int) :=
  if kms_usage_events.contains e.eventName then
    match e.eventTime with
    | some t => e.resources.foldl (processResource t) m
    | none => m
  else m

/-- Outcome of the CloudTrail `lookup_events` pagination: either all events,
or the events of the pages that were delivered before a client error. -/
inductive TrailLookup where
  | ok (events : List TrailEvent)
  | errAfter (processed : List TrailEvent) (code : String)

/-- `build_key_usage_map` (kms_delete_unused_keys.py lines 150-217): a single
fold over the event log.  On `TrailNotFoundException` or
`AccessDeniedException` it returns the empty map; on any other client error
it returns the map built from the pages processed so far. -/
def build_key_usage_map : TrailLookup → List (String × Int)
  | .ok evs => evs.foldl processEvent []
  | .errAfter processed code =>
    if code == "TrailNotFoundException" || code == "AccessDeniedException" then []
    else processed.foldl processEvent []

/-- Key metadata as returned by `describe_key`. -/
structure KeyMetadata where
  keyId : String
  keyManager : String
  keyState : String
  creationDate : Option Int
deriving DecidableEq, Repr

/-- The fields of the `keys_info` entries that the retirement decision uses. -/
structure KeyInfo where
  keyId : String
  state : String
  creationDate : Option Int
  lastUsed : Option Int
  daysSinceLastUse : Option Int
deriving DecidableEq, Repr

/-- The per-key selection logic of `list_customer_managed_keys`
(kms_delete_unused_keys.py lines 236-298): skip AWS-managed keys, apply the
state filter, skip keys pending deletion, then apply the usage filter (from
the pre-built map, falling back to the creation date when the key has no
usage entry). -/
def processKey (now : Int) (usage : List (String × Int)) (stateFilter : String)
    (unusedDays : Int) (skipUsageCheck : Bool) (md : KeyMetadata) : Option KeyInfo :=
  if md.keyManager == "AWS" then none
  else if stateFilter != "all" &&
      ((stateFilter == "enabled" && md.keyState != "Enabled") ||
       (stateFilter == "disabled" && md.keyState != "Disabled")) then none
  else if md.keyState == "PendingDeletion" then none
  else if !skipUsageCheck then
    match mapLookup usage md.keyId with
    | some lastUsed =>
      if daysBetween now lastUsed < unusedDays then none
      else some ⟨md.keyId, md.keyState, md.creationDate, some lastUsed,
        some (daysBetween now lastUsed)⟩
    | none =>
      match md.creationDate with
      | some created =>
        if daysBetween now created < unusedDays then none
        else some ⟨md.keyId, md.keyState, md.creationDate, none, some (daysBetween now created)⟩
      | none => some ⟨md.keyId, md.keyState, md.creationDate, none, none⟩
  else some ⟨md.keyId, md.keyState, md.creationDate, none, none⟩

/-- One key of the `list_keys` pagination: its `describe_key` result, or a
client error (in which case the key is skipped with a warning). -/
inductive KeyEntry where
  | ok (md : KeyMetadata)
  | err (keyId : String) (code : String)

/-- `list_customer_managed_keys` (kms_delete_unused_keys.py lines 220-317):
the candidate list accumulated over all listed keys. -/
def list_customer_managed_keys (now : Int) (usage : List (String × Int))
    (entries : List KeyEntry) (stateFilter : String) (unusedDays : Int)
    (skipUsageCheck : Bool) : List KeyInfo :=
  entries.filterMap fun e =>
    match e with
    | .ok md => processKey now usage stateFilter unusedDays skipUsageCheck md
    | .err _ _ => none

/-- A KMS mutating API call. -/
inductive KmsCall where
  | scheduleKeyDeletion (keyId : String) (pendingDays : Int)
deriving DecidableEq, Repr

/-- Result of the `schedule_key_deletion` API call when it is issued. -/
inductive KmsDeleteOutcome where
  | ok (deletionDate : Option Int)
  | clientError (code : String)
deriving DecidableEq, Repr

/-- `schedule_key_deletion` (kms_delete_unused_keys.py lines 365-376):
returns the (success, message) pair of the source together with the list of
mutating API calls issued.  In dry-run mode it returns early with no call;
any `ClientError` yields `success = false`. -/
def schedule_key_deletion (outcome : KmsDeleteOutcome) (keyId : String)
    (pendingDays : Int) (dryRun : Bool) : (Bool × String) × List KmsCall :=
  if dryRun then
    ((true, "[DRY-RUN] Would schedule key " ++ keyId), [])
  else
    match outcome with
    | .ok _ => ((true, "Scheduled for deletion"), [KmsCall.scheduleKeyDeletion keyId pendingDays])
    | .clientError code => ((false, "Failed: " ++ code), [KmsCall.scheduleKeyDeletion keyId pendingDays])

example : normalizeKeyId "arn:aws:kms:eu-west-1:1:key/k1" = "k1" := by decide
example : normalizeKeyId "k1" = "k1" := by decide
example :
    build_key_usage_map (.ok [⟨"Encrypt", some 100, [⟨"AWS::KMS::Key", some "key/k1"⟩]⟩,
      ⟨"Decrypt", some 50, [⟨"AWS::KMS::Key", some "k1"⟩]⟩]) = [("k1", 100)] := by decide
example : build_key_usage_map (.errAfter [⟨"Encrypt", some 1, []⟩] "TrailNotFoundException") = [] := by
  decide
example :
    (processKey 7776000 [("k1", 0)] "all" 90 false ⟨"k1", "CUSTOMER", "Enabled", some 0⟩).isSome = true := by
  decide
example :
    processKey 7689600 [("k1", 0)] "all" 90 false ⟨"k1", "CUSTOMER", "Enabled", some 0⟩ = none := by
  decide

/-! ## Security groups: delete_unused_security_groups.py -/

/-- An elastic network interface, reduced to the security-group ids it holds. -/
structure Eni where
  groups : List String
deriving DecidableEq, Repr

/-- Outcome of the `describe_network_interfaces` pagination: either every
page, or only the pages delivered before a `ClientError` was raised. -/
inductive EniListing where
  | ok (enis : List Eni)
  | errAfter (enis : List Eni)

/-- The set-accumulation loop of `get_used_security_groups`
(delete_unused_security_groups.py lines 66-70): `used_sg.add(sg["GroupId"])`
over every group of every ENI. -/
def collectUsedSg (enis : List Eni) : List String :=
  enis.foldl (fun acc eni => eni.groups.foldl (fun a g => if a.contains g then a else a ++ [g]) acc) []

/-- `get_used_security_groups` (delete_unused_security_groups.py lines 60-76):
on a `ClientError` partway through the pagination the function logs the
error and falls through to `return used_sg`, so the partially accumulated
set is returned exactly as if the enumeration had completed. -/
def get_used_security_groups : EniListing → List String
  | .ok enis => collectUsedSg enis
  | .errAfter enis => collectUsedSg enis

/-- A security group as listed by `describe_security_groups`. -/
structure SecurityGroup where
  groupId : String
  groupName : String
deriving DecidableEq, Repr

/-- Lower-casing of a name (`sg["GroupName"].lower()`), on the character data. -/
def lowerStr (s : String) : String := String.mk (s.data.map Char.toLower)

/-- The naming-convention filter of `get_all_security_groups`
(delete_unused_security_groups.py lines 86-94). -/
def sgTypeMatches (sgType : String) (sg : SecurityGroup) : Bool :=
  let name := (lowerStr sg.groupName).data
  if sgType == "all" then true
  else if sgType == "ec2" then
    !(("rds-".data.isPrefixOf name) || ("elb-".data.isPrefixOf name))
  else if sgType == "rds" then "rds-".data.isPrefixOf name
  else if sgType == "elb" then "elb-".data.isPrefixOf name
  else false

/-- `get_all_security_groups` (delete_unused_security_groups.py lines 79-97). -/
def get_all_security_groups (sgs : List SecurityGroup) (sgType : String) : List String :=
  (sgs.filter (sgTypeMatches sgType)).map SecurityGroup.groupId

/-- `unused_sg = all_sg - used_sg` computed by `main`
(delete_unused_security_groups.py line 135). -/
def unused_security_groups (listing : EniListing) (sgs : List SecurityGroup)
    (sgType : String) : List String :=
  let used := get_used_security_groups listing
  (get_all_security_groups sgs sgType).filter (fun g => !(used.contains g))

/-- An observable action of the security-group deletion loop. -/
inductive SgAction where
  | describeCall (sgId : String)
  | skippedDefault (sgId : String)
  | dryRunReport (sgId : String)
  | deleteCall (sgId : String)
  | deletedLog (sgId : String)
  | dependencySkip (sgId : String)
  | errorLogged (sgId : String)
deriving DecidableEq, Repr

/-- Result of a `delete_security_group` API call when it is issued. -/
inductive SgDeleteOutcome where
  | ok
  | clientError (code : String)
deriving DecidableEq, Repr

/-- Contiguous-substring test on character lists (Python's `in` on strings). -/
def charsInfixOf (pat : List Char) : List Char → Bool
  | [] => pat.isEmpty
  | c :: cs => pat.isPrefixOf (c :: cs) || charsInfixOf pat cs

/-- `"default" in sg_name.lower()` (delete_unused_security_groups.py line 107). -/
def containsDefault (name : String) : Bool :=
  charsInfixOf "default".data ((lowerStr name).data)

/-- The body of the loop of `delete_unused_security_groups`
(delete_unused_security_groups.py lines 102-124) for one group id, as the
list of actions it performs: describe the group, skip it when its name
contains "default", report instead of delete under dry-run, otherwise issue
the delete call and record its outcome (a `DependencyViolation` is logged
as a skip-warning, any other client error as an error). -/
def processSg (names : String → String) (outcome : String → SgDeleteOutcome)
    (dryRun : Bool) (sgId : String) : List SgAction :=
  let name := names sgId
  if containsDefault name then [SgAction.describeCall sgId, SgAction.skippedDefault sgId]
  else if dryRun then [SgAction.describeCall sgId, SgAction.dryRunReport sgId]
  else
    SgAction.describeCall sgId :: SgAction.deleteCall sgId ::
      (match outcome sgId with
       | .ok => [SgAction.deletedLog sgId]
       | .clientError code =>
         if code == "DependencyViolation" then [SgAction.dependencySkip sgId]
         else [SgAction.errorLogged sgId])

/-- `delete_unused_security_groups` (delete_unused_security_groups.py
lines 100-124): the loop over all unused group ids, as an action trace. -/
def delete_unused_security_groups (names : String → String)
    (outcome : String → SgDeleteOutcome) (dryRun : Bool) (ids : List String) : List SgAction :=
  ids.foldr (fun id acc => processSg names outcome dryRun id ++ acc) []

/-- Which actions mutate cloud state: only the actual delete call. -/
def sgMutating : SgAction → Bool
  | .deleteCall _ => true
  | _ => false

/-- Effect of one action on the set of existing security groups. -/
def applySgAction (state : List String) (a : SgAction) : List String :=
  match a with
  | .deleteCall id => state.filter (fun s => !(s == id))
  | _ => state

/-- Effect of a whole action trace on the set of existing security groups. -/
def applySgTrace (state : List String) (tr : List SgAction) : List String :=
  tr.foldl applySgAction state

/-! ## AMIs: ec2_delete_old_amis.py -/

/-- An AMI, reduced to its id and parsed creation timestamp. -/
structure Ami where
  imageId : String
  creationDate : Int
deriving DecidableEq, Repr

/-- The candidate selection of `main` (ec2_delete_old_amis.py lines 107-119):
an owned AMI is deregistered when it is older than the cutoff
(`now - retention_days`) and not referenced by any EC2 instance. -/
def amis_to_delete (now retentionDays : Int) (owned : List Ami) (inUse : List String) : List Ami :=
  let cutoff := now - retentionDays * 86400
  owned.filter (fun a => a.creationDate < cutoff && !(inUse.contains a.imageId))

/-! ## CloudWatch: cw_delete_log_groups_by_name.py -/

/-- A CloudWatch Logs mutating API call. -/
inductive CwCall where
  | deleteLogGroup (name : String)
deriving DecidableEq, Repr

/-- Result of the `delete_log_group` API call when it is issued. -/
inductive CwOutcome where
  | ok
  | clientError (code : String)
deriving DecidableEq, Repr

/-- `delete_log_group` (cw_delete_log_groups_by_name.py lines 54-65): under
dry-run it only logs and returns `true` without any API call; otherwise it
issues the delete call and returns `false` on a `ClientError`. -/
def delete_log_group (outcome : CwOutcome) (logGroupName : String) (dryRun : Bool) :
    Bool × List CwCall :=
  if dryRun then (true, [])
  else
    match outcome with
    | .ok => (true, [CwCall.deleteLogGroup logGroupName])
    | .clientError _ => (false, [CwCall.deleteLogGroup logGroupName])

example : containsDefault "my-Default-sg" = true := by decide
example : containsDefault "web-sg" = false := by decide
example :
    unused_security_groups (EniListing.ok [⟨["sg-1"]⟩]) [⟨"sg-1", "web"⟩, ⟨"sg-2", "db"⟩] "all"
      = ["sg-2"] := by decide
example : sgTypeMatches "rds" ⟨"sg-1", "RDS-db"⟩ = true := by decide
example :
    amis_to_delete 86400000 90 [⟨"ami-1", 0⟩, ⟨"ami-2", 86390000⟩] ["ami-3"] = [⟨"ami-1", 0⟩] := by
  decide

/-! ## SageMaker: sm_delete_user_profile.py -/

/-- Ceiling division on naturals. -/
def ceilDiv (a b : Nat) : Nat := (a + b - 1) / b

/-- The polling loop shared by `wait_for_apps_deletion` and
`wait_for_spaces_deletion` (sm_delete_user_profile.py lines 189-202 and
214-230): while `elapsed < maxWait`, re-check whether anything is still
active at the current elapsed time; return `true` as soon as nothing is,
otherwise sleep `interval` seconds and continue; once `maxWait` has elapsed
return `false` (timeout).  `fuel` is an upper bound on the number of
iterations, an artifact of the embedding only: the wrappers below pass
`ceilDiv maxWait interval + 1`, which the loop can never exhaust, so the
`fuel = 0` branch is unreachable (this is proved in
`wait_loop_fuel_stable`). -/
def wait_loop (active : Nat → Bool) (maxWait interval : Nat) : Nat → Nat → Bool
  | 0, _ => false
  | fuel + 1, elapsed =>
    if elapsed < maxWait then
      if active elapsed then wait_loop active maxWait interval fuel (elapsed + interval)
      else true
    else false

/-- The apps still being deleted at a given elapsed time: what
`list_apps_for_user_profile` returns then, filtered by
`app.get("Status") not in ["Deleted", "Failed"]`
(sm_delete_user_profile.py line 191).  An item is a (name, status) pair. -/
def activeAppsAt (remaining : Nat → List (String × String)) (elapsed : Nat) :
    List (String × String) :=
  (remaining elapsed).filter (fun a => !(a.2 == "Deleted" || a.2 == "Failed"))

/-- The spaces still being deleted at a given elapsed time
(sm_delete_user_profile.py line 216). -/
def activeSpacesAt (remaining : Nat → List (String × String)) (elapsed : Nat) :
    List (String × String) :=
  (remaining elapsed).filter (fun s => !(s.2 == "Deleted" || s.2 == "Failed"))

/-- `wait_for_apps_deletion` (sm_delete_user_profile.py lines 179-202):
returns `true` immediately when no apps were deleted, otherwise polls with
`max_wait_time = 300`, `wait_interval = 10`. -/
def wait_for_apps_deletion (apps : List String)
    (remaining : Nat → List (String × String)) : Bool :=
  if apps.isEmpty then true
  else wait_loop (fun e => !(activeAppsAt remaining e).isEmpty) 300 10 (ceilDiv 300 10 + 1) 0

/-- `wait_for_spaces_deletion` (sm_delete_user_profile.py lines 204-230):
`max_wait_time = 600`, `wait_interval = 15`. -/
def wait_for_spaces_deletion (spaces : List String)
    (remaining : Nat → List (String × String)) : Bool :=
  if spaces.isEmpty then true
  else wait_loop (fun e => !(activeSpacesAt remaining e).isEmpty) 600 15 (ceilDiv 600 15 + 1) 0

/-- An observable event of the teardown in `main`
(sm_delete_user_profile.py lines 348-391). -/
inductive SmEvent where
  | deleteAppCall (name : String) (ok : Bool)
  | deleteSpaceCall (name : String) (ok : Bool)
  | waitApps (ok : Bool)
  | waitSpaces (ok : Bool)
  | deleteProfileCall (ok : Bool)
  | profileSkipped
deriving DecidableEq, Repr

/-- Recognizer for the parent (user profile) delete call. -/
def isProfileDeleteCall : SmEvent → Bool
  | .deleteProfileCall _ => true
  | _ => false

/-- The deletion phase of `main` (sm_delete_user_profile.py lines 348-391),
as an event trace.  `appOk`/`spaceOk` give the result of each child's
delete call; `remApps`/`remSpaces` are the listing results the completion
waits poll.  Apps are deleted first; if their completion wait fails, `main`
returns before touching spaces or the profile.  Then spaces are deleted,
with the same early return on a wait failure.  The user profile is deleted
only when `total_items == 0 or success_count == total_items`; otherwise it
is reported as not deleted. -/
def sm_main_run (apps spaces : List String) (appOk spaceOk : String → Bool)
    (remApps remSpaces : Nat → List (String × String)) (profileOk : Bool) : List SmEvent :=
  let appEvents := apps.map (fun a => SmEvent.deleteAppCall a (appOk a))
  let spaceEvents := spaces.map (fun s => SmEvent.deleteSpaceCall s (spaceOk s))
  let success := (apps.filter appOk).length + (spaces.filter spaceOk).length
  let total := apps.length + spaces.length
  let finale :=
    if total == 0 || success == total then [SmEvent.deleteProfileCall profileOk]
    else [SmEvent.profileSkipped]
  if apps.isEmpty then
    if spaces.isEmpty then finale
    else if wait_for_spaces_deletion spaces remSpaces then
      spaceEvents ++ [SmEvent.waitSpaces true] ++ finale
    else spaceEvents ++ [SmEvent.waitSpaces false]
  else if wait_for_apps_deletion apps remApps then
    if spaces.isEmpty then appEvents ++ [SmEvent.waitApps true] ++ finale
    else if wait_for_spaces_deletion spaces remSpaces then
      appEvents ++ [SmEvent.waitApps true] ++ spaceEvents ++ [SmEvent.waitSpaces true] ++ finale
    else appEvents ++ [SmEvent.waitApps true] ++ spaceEvents ++ [SmEvent.waitSpaces false]
  else appEvents ++ [SmEvent.waitApps false]

example : wait_for_apps_deletion [] (fun _ => []) = true := by decide
example : wait_for_apps_deletion ["a"] (fun _ => [("a", "InService")]) = false := by decide
example : wait_for_apps_deletion ["a"] (fun _ => [("a", "Deleted")]) = true := by decide
example :
    wait_for_apps_deletion ["a"] (fun e => if e < 20 then [("a", "Deleting")] else [("a", "Deleted")])
      = true := by decide
example : wait_for_spaces_deletion ["s"] (fun _ => [("s", "Deleting")]) = false := by decide
example :
    sm_main_run ["a1"] [] (fun _ => true) (fun _ => true) (fun _ => []) (fun _ => []) true
      = [SmEvent.deleteAppCall "a1" true, SmEvent.waitApps true, SmEvent.deleteProfileCall true] := by
  decide
example :
    sm_main_run ["a1", "a2"] [] (fun a => a == "a1") (fun _ => true) (fun _ => []) (fun _ => []) true
      = [SmEvent.deleteAppCall "a1" true, SmEvent.deleteAppCall "a2" false,
         SmEvent.waitApps true, SmEvent.profileSkipped] := by decide
example :
    sm_main_run ["a1"] ["s1"] (fun _ => true) (fun _ => true)
      (fun _ => [("a1", "InService")]) (fun _ => []) true
      = [SmEvent.deleteAppCall "a1" true, SmEvent.waitApps false] := by decide

/-! ## Helper lemmas -/

/-- Every action emitted by `processSg` refers to the processed group id. -/
def sgActionId : SgAction → String
  | .describeCall id => id
  | .skippedDefault id => id
  | .dryRunReport id => id
  | .deleteCall id => id
  | .deletedLog id => id
  | .dependencySkip id => id
  | .errorLogged id => id

lemma sgActionId_of_mem_processSg {names : String → String} {outcome : String → SgDeleteOutcome}
    {dryRun : Bool} {sgId : String} {a : SgAction} (h : a ∈ processSg names outcome dryRun sgId) :
    sgActionId a = sgId := by
  unfold processSg at h
  cases hc : containsDefault (names sgId) <;> simp only [hc] at h
  · cases dryRun <;> simp only [Bool.false_eq_true, if_true, if_false] at h
    · rcases houtcome : outcome sgId with _ | code <;> simp only [houtcome] at h
      · simp only [List.mem_cons, List.mem_singleton] at h
        rcases h with rfl | rfl | rfl | h <;> simp [sgActionId] at *
      · cases hcode : code == "DependencyViolation" <;> simp only [hcode] at h <;>
          simp only [Bool.false_eq_true, if_true, if_false, List.mem_cons,
            List.mem_singleton] at h <;>
          rcases h with rfl | rfl | rfl | h <;> simp [sgActionId] at *
    · simp only [List.mem_cons, List.mem_singleton] at h
      rcases h with rfl | rfl | h <;> simp [sgActionId] at *
  · simp only [Bool.true_eq_false, if_true, List.mem_cons, List.mem_singleton] at h
    rcases h with rfl | rfl | h <;> simp [sgActionId] at *

lemma mem_delete_unused_security_groups {names : String → String}
    {outcome : String → SgDeleteOutcome} {dryRun : Bool} {ids : List String} {a : SgAction}
    (h : a ∈ delete_unused_security_groups names outcome dryRun ids) : sgActionId a ∈ ids := by
  induction ids with
  | nil => simp [delete_unused_security_groups] at h
  | cons id rest ih =>
    unfold delete_unused_security_groups at h
    simp only [List.foldr_cons, List.mem_append] at h
    rcases h with h | h
    · exact (sgActionId_of_mem_processSg h) ▸ List.mem_cons_self id rest
    · exact List.mem_cons_of_mem id (ih h)

lemma processSg_dryRun_no_delete {names : String → String} {outcome : String → SgDeleteOutcome}
    {sgId : String} {a : SgAction} (h : a ∈ processSg names outcome true sgId) :
    sgMutating a = false := by
  unfold processSg at h
  cases hc : containsDefault (names sgId) <;>
    simp only [hc, Bool.false_eq_true, Bool.true_eq_false, if_true, if_false,
      List.mem_cons, List.mem_singleton] at h <;>
    rcases h with rfl | rfl | h <;> simp [sgMutating] at *

lemma mem_delete_unused_security_groups_decomp {names : String → String}
    {outcome : String → SgDeleteOutcome} {dryRun : Bool} {ids : List String} {a : SgAction}
    (h : a ∈ delete_unused_security_groups names outcome dryRun ids) :
    ∃ id ∈ ids, a ∈ processSg names outcome dryRun id := by
  induction ids with
  | nil => simp [delete_unused_security_groups] at h
  | cons id rest ih =>
    unfold delete_unused_security_groups at h
    simp only [List.foldr_cons, List.mem_append] at h
    rcases h with h | h
    · exact ⟨id, List.mem_cons_self id rest, h⟩
    · obtain ⟨id', hmem, hin⟩ := ih h
      exact ⟨id', List.mem_cons_of_mem id hmem, hin⟩

lemma applySgTrace_of_no_mutation {tr : List SgAction} {s : List String}
    (h : ∀ a ∈ tr, sgMutating a = false) : applySgTrace s tr = s := by
  induction tr generalizing s with
  | nil => rfl
  | cons a rest ih =>
    have ha : sgMutating a = false := h a (List.mem_cons_self a rest)
    have hs : applySgAction s a = s := by
      cases a <;> simp [sgMutating] at ha <;> simp [applySgAction]
    unfold applySgTrace
    simp only [List.foldl_cons, hs]
    exact ih fun a' ha' => h a' (List.mem_cons_of_mem a ha')

lemma dryRunReport_mem {names : String → String} {outcome : String → SgDeleteOutcome}
    {ids : List String} {id : String} (hmem : id ∈ ids)
    (hdef : containsDefault (names id) = false) :
    SgAction.dryRunReport id ∈ delete_unused_security_groups names outcome true ids := by
  induction ids with
  | nil => cases hmem
  | cons hd rest ih =>
    unfold delete_unused_security_groups
    simp only [List.foldr_cons, List.mem_append]
    rcases List.mem_cons.mp hmem with rfl | hmem'
    · left
      unfold processSg
      simp [hdef]
    · right
      exact ih hmem'

/-! ## Claim theorems -/

/-- C7 counterexample.  The claim says that when enumerating the ENI
population fails partway, the scanner fails closed and no resource can be
judged unused.  In the code, a run whose ENI pagination raised after one
page still produces a non-empty unused list: the partially collected
reference set is used as if it were complete, and `sg-2` is judged unused
even though the failed part of the enumeration was never seen. -/
theorem sg_partial_enumeration_fail_open_cex :
    get_used_security_groups (EniListing.errAfter [⟨["sg-1"]⟩]) = ["sg-1"] ∧
    unused_security_groups (EniListing.errAfter [⟨["sg-1"]⟩])
      [⟨"sg-1", "web"⟩, ⟨"sg-2", "db"⟩] "all" = ["sg-2"] := by
  constructor <;> decide

/-- C7 (amended): if ENI enumeration fails partway,
`get_used_security_groups` logs the error and returns the references
collected from the pages that were delivered, and the pipeline computes the
unused set from this partial set exactly as if the enumeration had
completed successfully on those pages — there is no Unavailable marking and
no fail-closed behavior. -/
theorem sg_scanner_error_returns_partial_as_complete :
    ∀ (enis : List Eni) (sgs : List SecurityGroup) (sgType : String),
      get_used_security_groups (EniListing.errAfter enis) =
        get_used_security_groups (EniListing.ok enis) ∧
      unused_security_groups (EniListing.errAfter enis) sgs sgType =
        unused_security_groups (EniListing.ok enis) sgs sgType := by
  intro enis sgs sgType
  exact ⟨rfl, rfl⟩

/-- C8: dry run performs no mutating call.  For the security-group loop the
trace contains no `delete_security_group` call and applying the trace to
any state leaves it unchanged, while every candidate whose name does not
contain "default" is reported; `delete_log_group` issues no call and
reports success; `schedule_key_deletion` issues no call and reports
success. -/
theorem dry_run_no_mutating_calls :
    (∀ (names : String → String) (outcome : String → SgDeleteOutcome) (ids : List String)
        (state : List String),
      (delete_unused_security_groups names outcome true ids).all (fun a => !(sgMutating a)) = true ∧
      applySgTrace state (delete_unused_security_groups names outcome true ids) = state ∧
      (∀ id ∈ ids, containsDefault (names id) = false →
        SgAction.dryRunReport id ∈ delete_unused_security_groups names outcome true ids)) ∧
    (∀ (o : CwOutcome) (n : String),
      (delete_log_group o n true).2 = [] ∧ (delete_log_group o n true).1 = true) ∧
    (∀ (ko : KmsDeleteOutcome) (k : String) (d : Int),
      (schedule_key_deletion ko k d true).2 = [] ∧
      ((schedule_key_deletion ko k d true).1).1 = true) := by
  refine ⟨fun names outcome ids state => ?_, fun o n => ⟨rfl, rfl⟩, fun ko k d => ⟨rfl, rfl⟩⟩
  have hall : ∀ a ∈ delete_unused_security_groups names outcome true ids,
      sgMutating a = false := by
    intro a ha
    obtain ⟨id, _, hin⟩ := mem_delete_unused_security_groups_decomp ha
    exact processSg_dryRun_no_delete hin
  refine ⟨?_, applySgTrace_of_no_mutation hall, fun id hid hdef => dryRunReport_mem hid hdef⟩
  rw [List.all_eq_true]
  intro a ha
  simp [hall a ha]

/-- C8 witness: the dry-run report conjunct applied to a concrete run. -/
theorem dry_run_no_mutating_calls_witness :
    SgAction.dryRunReport "sg-1" ∈
      delete_unused_security_groups (fun _ => "web") (fun _ => SgDeleteOutcome.ok) true ["sg-1"] :=
  ((dry_run_no_mutating_calls.1 (fun _ => "web") (fun _ => SgDeleteOutcome.ok) ["sg-1"] []).2.2
    "sg-1" (by decide) (by decide))

/-- C6 counterexample.  The claim says a delete attempt on a vanished
resource (not-found error) is recorded as success.  In the code, a
`NotFoundException` from `schedule_key_deletion` yields `success = false`,
and an `InvalidGroup.NotFound` from `delete_security_group` is logged as an
error — both are recorded as failures. -/
theorem delete_not_found_recorded_failure_cex :
    ((schedule_key_deletion (KmsDeleteOutcome.clientError "NotFoundException") "key-1" 7 false).1).1
      = false ∧
    processSg (fun _ => "web-sg") (fun _ => SgDeleteOutcome.clientError "InvalidGroup.NotFound")
      false "sg-1"
      = [SgAction.describeCall "sg-1", SgAction.deleteCall "sg-1", SgAction.errorLogged "sg-1"] := by
  constructor <;> decide

/-- C6 (amended): a delete attempt that fails with a not-found error is
handled like every other client error — `schedule_key_deletion` returns
`success = false` for any error code, and the security-group loop logs any
non-DependencyViolation error (not-found included) as an error.  Not-found
is never mapped to success. -/
theorem delete_client_error_recorded_as_failure :
    ∀ (code keyId : String) (pendingDays : Int),
      ((schedule_key_deletion (KmsDeleteOutcome.clientError code) keyId pendingDays false).1).1
        = false ∧
      (∀ (names : String → String) (id : String), containsDefault (names id) = false →
        processSg names (fun _ => SgDeleteOutcome.clientError "InvalidGroup.NotFound") false id
          = [SgAction.describeCall id, SgAction.deleteCall id, SgAction.errorLogged id]) := by
  intro code keyId pendingDays
  refine ⟨rfl, fun names id hdef => ?_⟩
  unfold processSg
  simp [hdef]

/-- C6 witness: the amended theorem at a concrete not-found code. -/
theorem delete_client_error_recorded_as_failure_witness :
    ((schedule_key_deletion (KmsDeleteOutcome.clientError "InvalidKeyId.NotFound") "key-9" 30
        false).1).1 = false ∧
    processSg (fun _ => "app-sg") (fun _ => SgDeleteOutcome.clientError "InvalidGroup.NotFound")
      false "sg-9"
      = [SgAction.describeCall "sg-9", SgAction.deleteCall "sg-9", SgAction.errorLogged "sg-9"] :=
  ⟨(delete_client_error_recorded_as_failure "InvalidKeyId.NotFound" "key-9" 30).1,
   (delete_client_error_recorded_as_failure "InvalidKeyId.NotFound" "key-9" 30).2
     (fun _ => "app-sg") "sg-9" (by decide)⟩

/-- C2: a live-referenced resource is never a deletion candidate.  A
security group referenced by any ENI is excluded from the unused set and no
delete call for it appears in the deletion trace; an AMI referenced by any
EC2 instance never appears in `amis_to_delete`. -/
theorem live_referenced_resources_never_candidates :
    (∀ (listing : EniListing) (sgs : List SecurityGroup) (sgType g : String),
      g ∈ get_used_security_groups listing →
        g ∉ unused_security_groups listing sgs sgType ∧
        ∀ (names : String → String) (outcome : String → SgDeleteOutcome) (dryRun : Bool),
          SgAction.deleteCall g ∉
            delete_unused_security_groups names outcome dryRun
              (unused_security_groups listing sgs sgType)) ∧
    (∀ (now ret : Int) (owned : List Ami) (inUse : List String) (a : Ami),
      a ∈ amis_to_delete now ret owned inUse → a.imageId ∉ inUse) := by
  constructor
  · intro listing sgs sgType g hg
    have hnotun : g ∉ unused_security_groups listing sgs sgType := by
      intro hmem
      unfold unused_security_groups at hmem
      rw [List.mem_filter] at hmem
      have h2 := hmem.2
      rw [Bool.not_eq_eq_eq_not, Bool.not_true, List.contains] at h2
      rw [List.elem_eq_true_of_mem hg] at h2
      cases h2
    refine ⟨hnotun, fun names outcome dryRun hdel => ?_⟩
    have := mem_delete_unused_security_groups hdel
    simp only [sgActionId] at this
    exact hnotun this
  · intro now ret owned inUse a ha hin
    unfold amis_to_delete at ha
    rw [List.mem_filter, Bool.and_eq_true, Bool.not_eq_eq_eq_not, Bool.not_true,
      List.contains] at ha
    have h2 := ha.2.2
    rw [List.elem_eq_true_of_mem hin] at h2
    cases h2

/-- C2 witness: a group attached to an ENI and an in-use AMI, both excluded. -/
theorem live_referenced_resources_never_candidates_witness :
    "sg-1" ∉ unused_security_groups (EniListing.ok [⟨["sg-1"]⟩]) [⟨"sg-1", "web"⟩] "all" ∧
    (Ami.mk "ami-1" 0) ∉ amis_to_delete 86400000 90 [⟨"ami-1", 0⟩] ["ami-1"] :=
  ⟨(live_referenced_resources_never_candidates.1 (EniListing.ok [⟨["sg-1"]⟩]) [⟨"sg-1", "web"⟩]
      "all" "sg-1" (by decide)).1,
   fun hmem =>
     live_referenced_resources_never_candidates.2 86400000 90 [⟨"ami-1", 0⟩] ["ami-1"]
       (Ami.mk "ami-1" 0) hmem (by decide)⟩

lemma processKey_state_of_some {now : Int} {usage : List (String × Int)} {stateFilter : String}
    {unusedDays : Int} {skip : Bool} {md : KeyMetadata} {info : KeyInfo}
    (h : processKey now usage stateFilter unusedDays skip md = some info) :
    info.state = md.keyState := by
  unfold processKey at h
  repeat' split at h
  all_goals try cases h
  all_goals rfl

/-- C10: a key whose state is `PendingDeletion` is excluded during
discovery, for every state filter, usage map, threshold and
skip-usage-check setting, and consequently no entry of the candidate list
ever carries state `PendingDeletion`. -/
theorem pending_deletion_keys_never_candidates :
    ∀ (now : Int) (usage : List (String × Int)) (stateFilter : String) (unusedDays : Int)
      (skip : Bool),
      (∀ md : KeyMetadata, md.keyState = "PendingDeletion" →
        processKey now usage stateFilter unusedDays skip md = none) ∧
      (∀ (entries : List KeyEntry) (info : KeyInfo),
        info ∈ list_customer_managed_keys now usage entries stateFilter unusedDays skip →
        info.state ≠ "PendingDeletion") := by
  intro now usage stateFilter unusedDays skip
  have hnone : ∀ md : KeyMetadata, md.keyState = "PendingDeletion" →
      processKey now usage stateFilter unusedDays skip md = none := by
    intro md h
    unfold processKey
    rw [h]
    split
    · rfl
    · split
      · rfl
      · simp
  refine ⟨hnone, fun entries info hmem hstate => ?_⟩
  unfold list_customer_managed_keys at hmem
  rw [List.mem_filterMap] at hmem
  obtain ⟨e, _, he⟩ := hmem
  cases e with
  | err k c => cases he
  | ok md =>
    dsimp only at he
    by_cases hp : md.keyState = "PendingDeletion"
    · rw [hnone md hp] at he
      cases he
    · exact hp (by rw [← processKey_state_of_some he, hstate])

/-- C10 witness: a concrete pending-deletion key is rejected. -/
theorem pending_deletion_keys_never_candidates_witness :
    processKey 0 [] "all" 90 false ⟨"key-1", "CUSTOMER", "PendingDeletion", some 0⟩ = none :=
  (pending_deletion_keys_never_candidates 0 [] "all" 90 false).1
    ⟨"key-1", "CUSTOMER", "PendingDeletion", some 0⟩ rfl
lemma processKey_all_eq_of_lookup {now unusedDays lastUsed : Int} {usage : List (String × Int)}
    {md : KeyMetadata} (h1 : (md.keyManager == "AWS") = false)
    (h2 : (md.keyState == "PendingDeletion") = false)
    (hlk : mapLookup usage md.keyId = some lastUsed) :
    processKey now usage "all" unusedDays false md =
      if daysBetween now lastUsed < unusedDays then none
      else some ⟨md.keyId, md.keyState, md.creationDate, some lastUsed,
        some (daysBetween now lastUsed)⟩ := by
  unfold processKey
  rw [h1, h2, hlk]
  rfl

lemma processKey_all_eq_of_no_lookup {now unusedDays created : Int}
    {usage : List (String × Int)} {md : KeyMetadata}
    (h1 : (md.keyManager == "AWS") = false) (h2 : (md.keyState == "PendingDeletion") = false)
    (hlk : mapLookup usage md.keyId = none) (hc : md.creationDate = some created) :
    processKey now usage "all" unusedDays false md =
      if daysBetween now created < unusedDays then none
      else some ⟨md.keyId, md.keyState, some created, none, some (daysBetween now created)⟩ := by
  unfold processKey
  rw [h1, h2, hlk, hc]
  rfl

/-- C1 counterexample.  The claim says a resource whose historical evidence
source is unavailable (CloudTrail lookup raised `TrailNotFoundException` or
`AccessDeniedException`, empty usage map) is never selected as an
unused-deletion candidate.  In the code, with the empty map returned after
`TrailNotFoundException`, a customer key created 200 days ago (threshold
90, usage check NOT skipped) is still selected as a candidate. -/
theorem kms_trail_unavailable_still_selects_cex :
    build_key_usage_map (TrailLookup.errAfter [] "TrailNotFoundException") = [] ∧
    list_customer_managed_keys 17280000
      (build_key_usage_map (TrailLookup.errAfter [] "TrailNotFoundException"))
      [KeyEntry.ok ⟨"key-1", "CUSTOMER", "Enabled", some 0⟩] "all" 90 false
      = [⟨"key-1", "Enabled", some 0, none, some 200⟩] := by
  constructor <;> decide

/-- C1 (amended): on `TrailNotFoundException`/`AccessDeniedException` the
scanner does return an empty usage mapping, but discovery then falls back
to the key's creation date: a key with no usage entry is selected as an
unused-deletion candidate if and only if its whole-day age is at least
`unusedDays` (fail-open), rather than being excluded unconditionally. -/
theorem kms_trail_unavailable_falls_back_to_age :
    ∀ (pre : List TrailEvent) (code : String) (now unusedDays created : Int) (md : KeyMetadata),
      (code = "TrailNotFoundException" ∨ code = "AccessDeniedException") →
      build_key_usage_map (TrailLookup.errAfter pre code) = [] ∧
      (md.keyManager ≠ "AWS" → md.keyState = "Enabled" → md.creationDate = some created →
        ((processKey now [] "all" unusedDays false md).isSome = true ↔
          unusedDays ≤ daysBetween now created)) := by
  intro pre code now unusedDays created md hcode
  constructor
  · unfold build_key_usage_map
    rcases hcode with rfl | rfl <;> simp
  · intro hm hs hc
    have h1 : (md.keyManager == "AWS") = false := beq_eq_false_iff_ne.mpr hm
    have h2 : (md.keyState == "PendingDeletion") = false := by rw [hs]; decide
    rw [processKey_all_eq_of_no_lookup h1 h2
      (show mapLookup [] md.keyId = none from rfl) hc]
    rcases lt_or_le (daysBetween now created) unusedDays with hlt | hle
    · rw [if_pos hlt]
      simp only [Option.isSome_none, Bool.false_eq_true, false_iff]
      exact not_le.mpr hlt
    · rw [if_neg (not_lt.mpr hle)]
      simp only [Option.isSome_some, true_iff]
      exact hle

/-- C1 witness: the amended theorem at a concrete unavailable-trail run. -/
theorem kms_trail_unavailable_falls_back_to_age_witness :
    build_key_usage_map (TrailLookup.errAfter [] "AccessDeniedException") = [] ∧
    (processKey 17280000 [] "all" 90 false ⟨"key-1", "CUSTOMER", "Enabled", some 0⟩).isSome
      = true :=
  ⟨(kms_trail_unavailable_falls_back_to_age [] "AccessDeniedException" 17280000 90 0
      ⟨"key-1", "CUSTOMER", "Enabled", some 0⟩ (Or.inr rfl)).1,
   ((kms_trail_unavailable_falls_back_to_age [] "AccessDeniedException" 17280000 90 0
      ⟨"key-1", "CUSTOMER", "Enabled", some 0⟩ (Or.inr rfl)).2 (by decide) rfl rfl).mpr
     (by decide)⟩

/-- C4: the day-based retention comparison is inclusive at the threshold.
For a key whose last historical activity is present in the usage map, if
the whole-day difference between now and that activity equals
`unusedDays` the key is selected (eligible), and if it equals
`unusedDays - 1` it is filtered out as recently used. -/
theorem kms_unused_threshold_boundary_inclusive :
    ∀ (now lastUsed unusedDays : Int) (usage : List (String × Int)) (md : KeyMetadata),
      mapLookup usage md.keyId = some lastUsed →
      md.keyManager ≠ "AWS" → md.keyState = "Enabled" →
      (daysBetween now lastUsed = unusedDays →
        (processKey now usage "all" unusedDays false md).isSome = true) ∧
      (daysBetween now lastUsed = unusedDays - 1 →
        processKey now usage "all" unusedDays false md = none) := by
  intro now lastUsed unusedDays usage md hlk hm hs
  have h1 : (md.keyManager == "AWS") = false := beq_eq_false_iff_ne.mpr hm
  have h2 : (md.keyState == "PendingDeletion") = false := by rw [hs]; decide
  rw [processKey_all_eq_of_lookup h1 h2 hlk]
  constructor
  · intro hd
    rw [hd, if_neg (lt_irrefl unusedDays)]
    rfl
  · intro hd
    rw [hd, if_pos (by omega : unusedDays - 1 < unusedDays)]

/-- C4 witness: the boundary at 90 days, with the last use 90 days ago
(selected) and 89 days ago (filtered out). -/
theorem kms_unused_threshold_boundary_inclusive_witness :
    (processKey 7776000 [("key-1", 0)] "all" 90 false
        ⟨"key-1", "CUSTOMER", "Enabled", some 0⟩).isSome = true ∧
    processKey 7689600 [("key-1", 0)] "all" 90 false
        ⟨"key-1", "CUSTOMER", "Enabled", some 0⟩ = none :=
  ⟨(kms_unused_threshold_boundary_inclusive 7776000 0 90 [("key-1", 0)]
      ⟨"key-1", "CUSTOMER", "Enabled", some 0⟩ rfl (by decide) rfl).1 (by decide),
   (kms_unused_threshold_boundary_inclusive 7689600 0 90 [("key-1", 0)]
      ⟨"key-1", "CUSTOMER", "Enabled", some 0⟩ rfl (by decide) rfl).2 (by decide)⟩

lemma le_ceilDiv_mul (n i : Nat) (hi : 0 < i) : n ≤ ceilDiv n i * i := by
  unfold ceilDiv
  have h1 := Nat.div_add_mod (n + i - 1) i
  have h2 : (n + i - 1) % i < i := Nat.mod_lt _ hi
  rw [Nat.mul_comm]
  omega

lemma wait_loop_always_active (active : Nat → Bool) (maxW i : Nat)
    (h : ∀ e, active e = true) :
    ∀ (fuel elapsed : Nat), wait_loop active maxW i fuel elapsed = false := by
  intro fuel
  induction fuel with
  | zero => intro e; rfl
  | succ f ih =>
    intro e
    unfold wait_loop
    rw [h e]
    by_cases he : e < maxW
    · rw [if_pos he, if_pos rfl]
      exact ih _
    · exact if_neg he

lemma wait_loop_fuel_stable (active : Nat → Bool) (maxW i : Nat) :
    ∀ (fuel fuel' elapsed : Nat), maxW ≤ elapsed + fuel * i → maxW ≤ elapsed + fuel' * i →
      wait_loop active maxW i fuel elapsed = wait_loop active maxW i fuel' elapsed := by
  intro fuel
  induction fuel with
  | zero =>
    intro fuel' e h h'
    have hge : ¬ e < maxW := by omega
    cases fuel' with
    | zero => rfl
    | succ f' =>
      show false = wait_loop active maxW i (f' + 1) e
      unfold wait_loop
      rw [if_neg hge]
  | succ f ih =>
    intro fuel' e h h'
    by_cases he : e < maxW
    · cases fuel' with
      | zero => omega
      | succ f' =>
        unfold wait_loop
        rw [if_pos he, if_pos he]
        cases ha : active e
        · rw [if_neg (by simp), if_neg (by simp)]
        · rw [if_pos rfl, if_pos rfl]
          rw [Nat.succ_mul] at h h'
          exact ih f' (e + i) (by omega) (by omega)
    · cases fuel' with
      | zero =>
        show wait_loop active maxW i (f + 1) e = false
        unfold wait_loop
        rw [if_neg he]
      | succ f' =>
        unfold wait_loop
        rw [if_neg he, if_neg he]

/-- C9: the completion-polling loop terminates within
`ceil(maxWaitDuration / pollInterval)` poll ticks — any fuel budget large
enough to cover `maxWaitDuration` yields the identical result, so ticks
beyond the ceiling are never taken — and when the tracked resources never
leave their pending states the loop returns `false` (timeout), never
success: in particular `wait_for_apps_deletion` and
`wait_for_spaces_deletion` return `false` when apps/spaces remain
perpetually active. -/
theorem completion_wait_bounded_and_times_out :
    (∀ (active : Nat → Bool) (maxW i fuel : Nat), 0 < i → maxW ≤ fuel * i →
      wait_loop active maxW i fuel 0 = wait_loop active maxW i (ceilDiv maxW i) 0) ∧
    (∀ (active : Nat → Bool) (maxW i fuel elapsed : Nat), (∀ e, active e = true) →
      wait_loop active maxW i fuel elapsed = false) ∧
    (∀ (apps : List String) (remaining : Nat → List (String × String)),
      apps.isEmpty = false → (∀ e, (activeAppsAt remaining e).isEmpty = false) →
      wait_for_apps_deletion apps remaining = false) ∧
    (∀ (spaces : List String) (remaining : Nat → List (String × String)),
      spaces.isEmpty = false → (∀ e, (activeSpacesAt remaining e).isEmpty = false) →
      wait_for_spaces_deletion spaces remaining = false) := by
  refine ⟨fun active maxW i fuel hi hf => ?_,
    fun active maxW i fuel elapsed h => wait_loop_always_active active maxW i h fuel elapsed,
    fun apps remaining hne hact => ?_, fun spaces remaining hne hact => ?_⟩
  · have hc := le_ceilDiv_mul maxW i hi
    exact wait_loop_fuel_stable active maxW i fuel (ceilDiv maxW i) 0 (by omega) (by omega)
  · unfold wait_for_apps_deletion
    rw [hne, if_neg Bool.false_ne_true]
    exact wait_loop_always_active _ 300 10 (fun e => by rw [hact e]; rfl) _ 0
  · unfold wait_for_spaces_deletion
    rw [hne, if_neg Bool.false_ne_true]
    exact wait_loop_always_active _ 600 15 (fun e => by rw [hact e]; rfl) _ 0

/-- C9 witness: the scenario with a 60-second budget and 10-second
interval, and a perpetually active app, at concrete values. -/
theorem completion_wait_bounded_and_times_out_witness :
    wait_loop (fun _ => true) 60 10 6 0 = wait_loop (fun _ => true) 60 10 (ceilDiv 60 10) 0 ∧
    wait_loop (fun _ => true) 60 10 6 0 = false ∧
    wait_for_apps_deletion ["app-1"] (fun _ => [("app-1", "InService")]) = false :=
  ⟨completion_wait_bounded_and_times_out.1 (fun _ => true) 60 10 6 (by decide) (by decide),
   completion_wait_bounded_and_times_out.2.1 (fun _ => true) 60 10 6 0 (fun _ => rfl),
   completion_wait_bounded_and_times_out.2.2.1 ["app-1"] (fun _ => [("app-1", "InService")])
     (by decide) (fun _ => rfl)⟩

/-! ## C5: characterization of the usage map built by `build_key_usage_map` -/

/-- Maximum of a list of timestamps, `none` on the empty list. -/
def listMax : List Int → Option Int
  | [] => none
  | t :: ts =>
    match listMax ts with
    | none => some t
    | some m => some (max t m)

/-- Merge of two optional maxima. -/
def optCombine : Option Int → Option Int → Option Int
  | none, b => b
  | some a, none => some a
  | some a, some b => some (max a b)

/-- Update of an optional running maximum with a new value. -/
def optMaxVal : Option Int → Int → Int
  | none, t => t
  | some o, t => max o t

/-- The timestamps an event's resource list contributes for the normalized
key id `k`, in the spec's sense: one copy of `t` per resource entry of type
`AWS::KMS::Key` whose name normalizes to `k`. -/
def resourceTimes (t : Int) (k : String) : List TrailResource → List Int
  | [] => []
  | r :: rs =>
    if r.resourceType == "AWS::KMS::Key" then
      match r.resourceName with
      | some n =>
        if normalizeKeyId n == k then t :: resourceTimes t k rs else resourceTimes t k rs
      | none => resourceTimes t k rs
    else resourceTimes t k rs

/-- The timestamps one event contributes for key id `k`: nothing unless the
event is a cryptographic operation with a timestamp. -/
def eventTimes (k : String) (e : TrailEvent) : List Int :=
  if kms_usage_events.contains e.eventName then
    match e.eventTime with
    | some t => resourceTimes t k e.resources
    | none => []
  else []

/-- All matching activity timestamps for key id `k` across the event log. -/
def matchingTimes (evs : List TrailEvent) (k : String) : List Int :=
  evs.foldr (fun e acc => eventTimes k e ++ acc) []

lemma mapLookup_cons (k1 : String) (t1 : Int) (rest : List (String × Int)) (k : String) :
    mapLookup ((k1, t1) :: rest) k = if k1 == k then some t1 else mapLookup rest k := by
  unfold mapLookup
  cases hk : k1 == k <;> simp [List.find?, hk]

lemma mapLookup_updateUsage_self (m : List (String × Int)) (k : String) (t : Int) :
    mapLookup (updateUsage m k t) k = some (optMaxVal (mapLookup m k) t) := by
  induction m with
  | nil =>
    show mapLookup [(k, t)] k = some (optMaxVal (mapLookup [] k) t)
    rw [mapLookup_cons]
    simp [optMaxVal, mapLookup]
  | cons p rest ih =>
    obtain ⟨k1, t1⟩ := p
    unfold updateUsage
    cases hk : k1 == k
    · simp only [Bool.false_eq_true, if_false]
      rw [mapLookup_cons, mapLookup_cons, hk]
      simp only [Bool.false_eq_true, if_false]
      exact ih
    · simp only [if_true]
      have hk' : k1 = k := eq_of_beq hk
      subst hk'
      by_cases hlt : t1 < t
      · rw [if_pos hlt, mapLookup_cons, mapLookup_cons]
        simp [optMaxVal, max_eq_right (le_of_lt hlt)]
      · rw [if_neg hlt, mapLookup_cons]
        simp [optMaxVal, max_eq_left (not_lt.mp hlt)]

lemma mapLookup_updateUsage_other (m : List (String × Int)) {k k' : String} (t : Int)
    (hne : (k == k') = false) :
    mapLookup (updateUsage m k t) k' = mapLookup m k' := by
  induction m with
  | nil =>
    show mapLookup [(k, t)] k' = mapLookup [] k'
    rw [mapLookup_cons, hne]
    simp [mapLookup]
  | cons p rest ih =>
    obtain ⟨k1, t1⟩ := p
    unfold updateUsage
    cases hk : k1 == k
    · simp only [Bool.false_eq_true, if_false]
      rw [mapLookup_cons, mapLookup_cons]
      cases hk1 : k1 == k'
      · simp only [Bool.false_eq_true, if_false]
        exact ih
      · simp
    · simp only [if_true]
      have hkk : k1 = k := eq_of_beq hk
      subst hkk
      by_cases hlt : t1 < t
      · rw [if_pos hlt, mapLookup_cons, mapLookup_cons, hne]
        simp
      · rw [if_neg hlt]

lemma optCombine_none_right (a : Option Int) : optCombine a none = a := by
  cases a <;> rfl

lemma optCombine_assoc (a b c : Option Int) :
    optCombine (optCombine a b) c = optCombine a (optCombine b c) := by
  cases a <;> cases b <;> cases c <;> simp [optCombine, max_assoc]

lemma some_optMaxVal (o : Option Int) (t : Int) :
    some (optMaxVal o t) = optCombine o (some t) := by
  cases o <;> rfl

lemma listMax_cons (x : Int) (xs : List Int) :
    listMax (x :: xs) = optCombine (some x) (listMax xs) := by
  show (match listMax xs with
    | none => some x
    | some m => some (max x m)) = optCombine (some x) (listMax xs)
  cases listMax xs <;> rfl

lemma listMax_append (xs ys : List Int) :
    listMax (xs ++ ys) = optCombine (listMax xs) (listMax ys) := by
  induction xs with
  | nil => rfl
  | cons x xs ih =>
    rw [List.cons_append, listMax_cons, listMax_cons, ih, optCombine_assoc]

lemma processResource_eq (t : Int) (m : List (String × Int)) (r : TrailResource) :
    processResource t m r =
      if r.resourceType == "AWS::KMS::Key" then
        match r.resourceName with
        | some name => updateUsage m (normalizeKeyId name) t
        | none => m
      else m := rfl

lemma resourceTimes_cons (t : Int) (k : String) (r : TrailResource) (rs : List TrailResource) :
    resourceTimes t k (r :: rs) =
      if r.resourceType == "AWS::KMS::Key" then
        match r.resourceName with
        | some n =>
          if normalizeKeyId n == k then t :: resourceTimes t k rs else resourceTimes t k rs
        | none => resourceTimes t k rs
      else resourceTimes t k rs := rfl

lemma mapLookup_foldl_processResource (t : Int) (k : String) :
    ∀ (rs : List TrailResource) (m : List (String × Int)),
      mapLookup (rs.foldl (processResource t) m) k =
        optCombine (mapLookup m k) (listMax (resourceTimes t k rs)) := by
  intro rs
  induction rs with
  | nil =>
    intro m
    rw [List.foldl_nil]
    show mapLookup m k = optCombine (mapLookup m k) (listMax [])
    rw [show listMax [] = none from rfl, optCombine_none_right]
  | cons r rs ih =>
    intro m
    rw [List.foldl_cons, ih, resourceTimes_cons, processResource_eq]
    cases hr : r.resourceType == "AWS::KMS::Key"
    · rw [if_neg Bool.false_ne_true, if_neg Bool.false_ne_true]
    · rw [if_pos rfl, if_pos rfl]
      cases hn : r.resourceName with
      | none => simp only [hn]
      | some n =>
        simp only [hn]
        cases hk : normalizeKeyId n == k
        · rw [if_neg Bool.false_ne_true, mapLookup_updateUsage_other m t hk]
        · rw [if_pos rfl, eq_of_beq hk, mapLookup_updateUsage_self, listMax_cons, some_optMaxVal,
            optCombine_assoc]

lemma eventTimes_eq (k : String) (e : TrailEvent) :
    eventTimes k e =
      if kms_usage_events.contains e.eventName then
        match e.eventTime with
        | some t => resourceTimes t k e.resources
        | none => []
      else [] := rfl

lemma processEvent_eq (m : List (String × Int)) (e : TrailEvent) :
    processEvent m e =
      if kms_usage_events.contains e.eventName then
        match e.eventTime with
        | some t => e.resources.foldl (processResource t) m
        | none => m
      else m := rfl

lemma mapLookup_foldl_processEvent (k : String) :
    ∀ (evs : List TrailEvent) (m : List (String × Int)),
      mapLookup (evs.foldl processEvent m) k =
        optCombine (mapLookup m k) (listMax (matchingTimes evs k)) := by
  intro evs
  induction evs with
  | nil =>
    intro m
    rw [List.foldl_nil]
    show mapLookup m k = optCombine (mapLookup m k) (listMax [])
    rw [show listMax [] = none from rfl, optCombine_none_right]
  | cons e evs ih =>
    intro m
    rw [List.foldl_cons, ih]
    show optCombine (mapLookup (processEvent m e) k) (listMax (matchingTimes evs k)) =
      optCombine (mapLookup m k) (listMax (eventTimes k e ++ matchingTimes evs k))
    rw [listMax_append, ← optCombine_assoc, processEvent_eq, eventTimes_eq]
    cases hc : kms_usage_events.contains e.eventName
    · rw [if_neg Bool.false_ne_true, if_neg Bool.false_ne_true]
      rw [show listMax [] = none from rfl, optCombine_none_right]
    · rw [if_pos rfl, if_pos rfl]
      cases ht : e.eventTime with
      | none =>
        simp only [ht]
        rw [show listMax [] = none from rfl, optCombine_none_right]
      | some t =>
        simp only [ht]
        rw [mapLookup_foldl_processResource]

/-- C5 counterexample.  The claim says the qualifier-stripping
normalization is applied both before map insertion and before lookup.  In
the code, insertion normalizes (`"alias/k1"` is stored under `"k1"`) but
the lookup in `list_customer_managed_keys` uses the raw candidate key id:
looking up `"alias/k1"` misses the entry, so a key with that id and a
usage event at `now` is reported with `LastUsed = None` and selected via
the creation-date fallback — had the lookup normalized, the key would have
been dropped as recently used. -/
theorem kms_usage_lookup_not_normalized_cex :
    mapLookup (build_key_usage_map (TrailLookup.ok
        [⟨"Encrypt", some 17280000, [⟨"AWS::KMS::Key", some "alias/k1"⟩]⟩]))
      (normalizeKeyId "alias/k1") = some 17280000 ∧
    mapLookup (build_key_usage_map (TrailLookup.ok
        [⟨"Encrypt", some 17280000, [⟨"AWS::KMS::Key", some "alias/k1"⟩]⟩]))
      "alias/k1" = none ∧
    (processKey 17280000 (build_key_usage_map (TrailLookup.ok
        [⟨"Encrypt", some 17280000, [⟨"AWS::KMS::Key", some "alias/k1"⟩]⟩]))
      "all" 90 false ⟨"alias/k1", "CUSTOMER", "Enabled", some 0⟩).map KeyInfo.lastUsed
      = some none := by
  refine ⟨by decide, by decide, by decide⟩

/-- C5 (amended): `build_key_usage_map` is a single fold over the event
log, and for every key id `k` the value stored in the map is exactly the
maximum timestamp over all matching activity events (cryptographic event
name, timestamp present, resource of type `AWS::KMS::Key` whose name
normalizes to `k`), duplicates tie-broken by the maximum; the
qualifier-stripping normalization is applied before insertion, while the
lookup uses the raw candidate key id, which coincides with its normalized
form exactly when the id contains no '/'. -/
theorem kms_usage_map_single_pass_max :
    ∀ (evs : List TrailEvent) (k : String),
      mapLookup (build_key_usage_map (TrailLookup.ok evs)) k = listMax (matchingTimes evs k) ∧
      (k.data.contains '/' = false → normalizeKeyId k = k) := by
  intro evs k
  constructor
  · show mapLookup (evs.foldl processEvent []) k = listMax (matchingTimes evs k)
    rw [mapLookup_foldl_processEvent]
    rw [show mapLookup [] k = none from rfl]
    rfl
  · intro h
    unfold normalizeKeyId
    rw [h]
    exact if_neg Bool.false_ne_true

/-- C5 witness: the single-pass maximum on a concrete log with a duplicate
resource id under two spellings, and the normalization fixed point on a
bare id. -/
theorem kms_usage_map_single_pass_max_witness :
    mapLookup (build_key_usage_map (TrailLookup.ok
        [⟨"Encrypt", some 100, [⟨"AWS::KMS::Key", some "key/k1"⟩]⟩,
         ⟨"Decrypt", some 250, [⟨"AWS::KMS::Key", some "k1"⟩]⟩]))
      "k1" = some 250 ∧
    normalizeKeyId "k1" = "k1" :=
  ⟨(kms_usage_map_single_pass_max
      [⟨"Encrypt", some 100, [⟨"AWS::KMS::Key", some "key/k1"⟩]⟩,
       ⟨"Decrypt", some 250, [⟨"AWS::KMS::Key", some "k1"⟩]⟩] "k1").1.trans (by decide),
   (kms_usage_map_single_pass_max
      [⟨"Encrypt", some 100, [⟨"AWS::KMS::Key", some "key/k1"⟩]⟩,
       ⟨"Decrypt", some 250, [⟨"AWS::KMS::Key", some "k1"⟩]⟩] "k1").2 (by decide)⟩

/-! ## C3: dependency ordering in the SageMaker teardown -/

/-- The final step of `main` (sm_delete_user_profile.py lines 383-391):
delete the user profile iff `total_items == 0 or success_count ==
total_items`, otherwise report it as not deleted. -/
def sm_finale (apps spaces : List String) (appOk spaceOk : String → Bool)
    (profileOk : Bool) : List SmEvent :=
  if apps.length + spaces.length == 0 ||
      (apps.filter appOk).length + (spaces.filter spaceOk).length
        == apps.length + spaces.length
    then [SmEvent.deleteProfileCall profileOk] else [SmEvent.profileSkipped]

lemma sm_finale_eq_profile {apps spaces : List String} {appOk spaceOk : String → Bool}
    {profileOk : Bool}
    (h : (∀ a ∈ apps, appOk a = true) ∧ (∀ s ∈ spaces, spaceOk s = true)) :
    sm_finale apps spaces appOk spaceOk profileOk = [SmEvent.deleteProfileCall profileOk] := by
  unfold sm_finale
  have hcondt : (apps.length + spaces.length == 0 ||
      (apps.filter appOk).length + (spaces.filter spaceOk).length
        == apps.length + spaces.length) = true := by
    rw [Bool.or_eq_true]
    right
    rw [List.filter_eq_self.mpr h.1, List.filter_eq_self.mpr h.2]
    exact beq_self_eq_true _
  rw [hcondt, if_pos rfl]

lemma sm_finale_eq_skipped {apps spaces : List String} {appOk spaceOk : String → Bool}
    {profileOk : Bool}
    (h : ¬((∀ a ∈ apps, appOk a = true) ∧ (∀ s ∈ spaces, spaceOk s = true))) :
    sm_finale apps spaces appOk spaceOk profileOk = [SmEvent.profileSkipped] := by
  unfold sm_finale
  have h1 : (apps.filter appOk).length ≤ apps.length := (List.filter_sublist apps).length_le
  have h2 : (spaces.filter spaceOk).length ≤ spaces.length := (List.filter_sublist spaces).length_le
  have hne : (apps.filter appOk).length + (spaces.filter spaceOk).length
      ≠ apps.length + spaces.length := by
    intro heq
    apply h
    constructor
    · exact List.filter_eq_self.mp ((List.filter_sublist apps).eq_of_length (by omega))
    · exact List.filter_eq_self.mp ((List.filter_sublist spaces).eq_of_length (by omega))
  have htotal : apps.length + spaces.length ≠ 0 := by
    intro h0
    apply h
    have hae : apps = [] := List.length_eq_zero.mp (by omega)
    have hse : spaces = [] := List.length_eq_zero.mp (by omega)
    subst hae
    subst hse
    exact ⟨fun a ha => absurd ha (List.not_mem_nil a), fun s hs => absurd hs (List.not_mem_nil s)⟩
  have hcondf : (apps.length + spaces.length == 0 ||
      (apps.filter appOk).length + (spaces.filter spaceOk).length
        == apps.length + spaces.length) = false := by
    rw [Bool.or_eq_false_iff]
    exact ⟨beq_eq_false_iff_ne.mpr htotal, beq_eq_false_iff_ne.mpr hne⟩
  rw [hcondf, if_neg Bool.false_ne_true]

section SmBranches

variable {apps spaces : List String} {appOk spaceOk : String → Bool}
variable {remApps remSpaces : Nat → List (String × String)} {profileOk : Bool}

lemma sm_main_run_eq_AB (h1 : apps.isEmpty = true) (h2 : spaces.isEmpty = true) :
    sm_main_run apps spaces appOk spaceOk remApps remSpaces profileOk =
      sm_finale apps spaces appOk spaceOk profileOk := by
  unfold sm_main_run
  rw [h1, h2]
  rfl

lemma sm_main_run_eq_ASf (h1 : apps.isEmpty = true) (h2 : spaces.isEmpty = false)
    (h3 : wait_for_spaces_deletion spaces remSpaces = false) :
    sm_main_run apps spaces appOk spaceOk remApps remSpaces profileOk =
      spaces.map (fun s => SmEvent.deleteSpaceCall s (spaceOk s)) ++
        [SmEvent.waitSpaces false] := by
  unfold sm_main_run
  rw [h1, h2, h3]
  rfl

lemma sm_main_run_eq_ASt (h1 : apps.isEmpty = true) (h2 : spaces.isEmpty = false)
    (h3 : wait_for_spaces_deletion spaces remSpaces = true) :
    sm_main_run apps spaces appOk spaceOk remApps remSpaces profileOk =
      spaces.map (fun s => SmEvent.deleteSpaceCall s (spaceOk s)) ++
        [SmEvent.waitSpaces true] ++ sm_finale apps spaces appOk spaceOk profileOk := by
  unfold sm_main_run
  rw [h1, h2, h3]
  rfl

lemma sm_main_run_eq_Wf (h1 : apps.isEmpty = false)
    (h2 : wait_for_apps_deletion apps remApps = false) :
    sm_main_run apps spaces appOk spaceOk remApps remSpaces profileOk =
      apps.map (fun a => SmEvent.deleteAppCall a (appOk a)) ++ [SmEvent.waitApps false] := by
  unfold sm_main_run
  rw [h1, h2]
  rfl

lemma sm_main_run_eq_WtB (h1 : apps.isEmpty = false)
    (h2 : wait_for_apps_deletion apps remApps = true) (h3 : spaces.isEmpty = true) :
    sm_main_run apps spaces appOk spaceOk remApps remSpaces profileOk =
      apps.map (fun a => SmEvent.deleteAppCall a (appOk a)) ++ [SmEvent.waitApps true] ++
        sm_finale apps spaces appOk spaceOk profileOk := by
  unfold sm_main_run
  rw [h1, h2, h3]
  rfl

lemma sm_main_run_eq_WtSf (h1 : apps.isEmpty = false)
    (h2 : wait_for_apps_deletion apps remApps = true) (h3 : spaces.isEmpty = false)
    (h4 : wait_for_spaces_deletion spaces remSpaces = false) :
    sm_main_run apps spaces appOk spaceOk remApps remSpaces profileOk =
      apps.map (fun a => SmEvent.deleteAppCall a (appOk a)) ++ [SmEvent.waitApps true] ++
        spaces.map (fun s => SmEvent.deleteSpaceCall s (spaceOk s)) ++
        [SmEvent.waitSpaces false] := by
  unfold sm_main_run
  rw [h1, h2, h3, h4]
  rfl

lemma sm_main_run_eq_WtSt (h1 : apps.isEmpty = false)
    (h2 : wait_for_apps_deletion apps remApps = true) (h3 : spaces.isEmpty = false)
    (h4 : wait_for_spaces_deletion spaces remSpaces = true) :
    sm_main_run apps spaces appOk spaceOk remApps remSpaces profileOk =
      apps.map (fun a => SmEvent.deleteAppCall a (appOk a)) ++ [SmEvent.waitApps true] ++
        spaces.map (fun s => SmEvent.deleteSpaceCall s (spaceOk s)) ++
        [SmEvent.waitSpaces true] ++ sm_finale apps spaces appOk spaceOk profileOk := by
  unfold sm_main_run
  rw [h1, h2, h3, h4]
  rfl

end SmBranches

lemma exists_profile_append_iff (l1 l2 : List SmEvent) :
    (∃ e ∈ l1 ++ l2, isProfileDeleteCall e = true) ↔
      ((∃ e ∈ l1, isProfileDeleteCall e = true) ∨ (∃ e ∈ l2, isProfileDeleteCall e = true)) := by
  constructor
  · rintro ⟨e, he, hp⟩
    rcases List.mem_append.mp he with h | h
    · exact Or.inl ⟨e, h, hp⟩
    · exact Or.inr ⟨e, h, hp⟩
  · rintro (⟨e, he, hp⟩ | ⟨e, he, hp⟩)
    · exact ⟨e, List.mem_append_left _ he, hp⟩
    · exact ⟨e, List.mem_append_right _ he, hp⟩

lemma no_profile_in_appEvents (apps : List String) (appOk : String → Bool) :
    ¬ ∃ e ∈ apps.map (fun a => SmEvent.deleteAppCall a (appOk a)),
      isProfileDeleteCall e = true := by
  rintro ⟨e, he, hp⟩
  obtain ⟨a, -, rfl⟩ := List.mem_map.mp he
  exact Bool.false_ne_true hp

lemma no_profile_in_spaceEvents (spaces : List String) (spaceOk : String → Bool) :
    ¬ ∃ e ∈ spaces.map (fun s => SmEvent.deleteSpaceCall s (spaceOk s)),
      isProfileDeleteCall e = true := by
  rintro ⟨e, he, hp⟩
  obtain ⟨s, -, rfl⟩ := List.mem_map.mp he
  exact Bool.false_ne_true hp

lemma no_profile_in_single (ev : SmEvent) (h : isProfileDeleteCall ev = false) :
    ¬ ∃ e ∈ [ev], isProfileDeleteCall e = true := by
  rintro ⟨e, he, hp⟩
  rw [List.mem_singleton] at he
  subst he
  rw [h] at hp
  exact Bool.false_ne_true hp

/-- C3: in the SageMaker teardown, the user profile (parent) delete call is
issued iff every child (app and space) delete call succeeded and every
completion wait succeeded; and whenever it is issued it is the last event
of the trace, i.e. every child delete call precedes it.  In particular the
parent delete call is never attempted when a child's deletion failed or a
wait timed out. -/
theorem sm_parent_deleted_iff_children_succeeded :
    ∀ (apps spaces : List String) (appOk spaceOk : String → Bool)
      (remApps remSpaces : Nat → List (String × String)) (profileOk : Bool),
      ((∃ e ∈ sm_main_run apps spaces appOk spaceOk remApps remSpaces profileOk,
          isProfileDeleteCall e = true) ↔
        ((∀ a ∈ apps, appOk a = true) ∧ (∀ s ∈ spaces, spaceOk s = true) ∧
          (apps ≠ [] → wait_for_apps_deletion apps remApps = true) ∧
          (spaces ≠ [] → wait_for_spaces_deletion spaces remSpaces = true))) ∧
      ((∃ e ∈ sm_main_run apps spaces appOk spaceOk remApps remSpaces profileOk,
          isProfileDeleteCall e = true) →
        ∃ pre, sm_main_run apps spaces appOk spaceOk remApps remSpaces profileOk =
            pre ++ [SmEvent.deleteProfileCall profileOk] ∧
          (∀ a ∈ apps, SmEvent.deleteAppCall a (appOk a) ∈ pre) ∧
          (∀ s ∈ spaces, SmEvent.deleteSpaceCall s (spaceOk s) ∈ pre)) := by
  intro apps spaces appOk spaceOk remApps remSpaces profileOk
  cases ha : apps.isEmpty with
  | true =>
    have hae : apps = [] := List.isEmpty_iff.mp ha
    have hvacA : ∀ a ∈ apps, appOk a = true := by
      intro a haa
      rw [hae] at haa
      exact absurd haa (List.not_mem_nil a)
    cases hs : spaces.isEmpty with
    | true =>
      have hse : spaces = [] := List.isEmpty_iff.mp hs
      have hvacS : ∀ s ∈ spaces, spaceOk s = true := by
        intro s hss
        rw [hse] at hss
        exact absurd hss (List.not_mem_nil s)
      rw [sm_main_run_eq_AB ha hs, sm_finale_eq_profile ⟨hvacA, hvacS⟩]
      constructor
      · constructor
        · intro _
          exact ⟨hvacA, hvacS, fun h => absurd hae h, fun h => absurd hse h⟩
        · intro _
          exact ⟨SmEvent.deleteProfileCall profileOk, List.mem_singleton_self _, rfl⟩
      · intro _
        refine ⟨[], rfl, ?_, ?_⟩
        · intro a haa
          rw [hae] at haa
          exact absurd haa (List.not_mem_nil a)
        · intro s hss
          rw [hse] at hss
          exact absurd hss (List.not_mem_nil s)
    | false =>
      have hsne : spaces ≠ [] := List.isEmpty_eq_false.mp hs
      cases hwS : wait_for_spaces_deletion spaces remSpaces with
      | false =>
        rw [sm_main_run_eq_ASf ha hs hwS]
        have hnoex : ¬ ∃ e ∈ spaces.map (fun s => SmEvent.deleteSpaceCall s (spaceOk s)) ++
            [SmEvent.waitSpaces false], isProfileDeleteCall e = true := by
          intro hex
          rcases (exists_profile_append_iff _ _).mp hex with h | h
          · exact no_profile_in_spaceEvents spaces spaceOk h
          · exact no_profile_in_single (SmEvent.waitSpaces false) rfl h
        refine ⟨⟨fun hex => absurd hex hnoex, ?_⟩, fun hex => absurd hex hnoex⟩
        rintro ⟨-, -, -, h4⟩
        exact absurd (h4 hsne) Bool.false_ne_true
      | true =>
        rw [sm_main_run_eq_ASt ha hs hwS]
        by_cases hall : (∀ a ∈ apps, appOk a = true) ∧ (∀ s ∈ spaces, spaceOk s = true)
        · rw [sm_finale_eq_profile hall]
          constructor
          · constructor
            · intro _
              exact ⟨hall.1, hall.2, fun h => absurd hae h, fun _ => rfl⟩
            · intro _
              exact ⟨SmEvent.deleteProfileCall profileOk,
                List.mem_append_right _ (List.mem_singleton_self _), rfl⟩
          · intro _
            refine ⟨spaces.map (fun s => SmEvent.deleteSpaceCall s (spaceOk s)) ++
              [SmEvent.waitSpaces true], rfl, ?_, ?_⟩
            · intro a haa
              rw [hae] at haa
              exact absurd haa (List.not_mem_nil a)
            · intro s hss
              exact List.mem_append_left _ (List.mem_map_of_mem _ hss)
        · rw [sm_finale_eq_skipped hall]
          have hnoex : ¬ ∃ e ∈ spaces.map (fun s => SmEvent.deleteSpaceCall s (spaceOk s)) ++
              [SmEvent.waitSpaces true] ++ [SmEvent.profileSkipped],
              isProfileDeleteCall e = true := by
            intro hex
            rcases (exists_profile_append_iff _ _).mp hex with h | h
            · rcases (exists_profile_append_iff _ _).mp h with h' | h'
              · exact no_profile_in_spaceEvents spaces spaceOk h'
              · exact no_profile_in_single (SmEvent.waitSpaces true) rfl h'
            · exact no_profile_in_single SmEvent.profileSkipped rfl h
          refine ⟨⟨fun hex => absurd hex hnoex, ?_⟩, fun hex => absurd hex hnoex⟩
          rintro ⟨h1, h2, -, -⟩
          exact absurd ⟨h1, h2⟩ hall
  | false =>
    have hane : apps ≠ [] := List.isEmpty_eq_false.mp ha
    cases hwA : wait_for_apps_deletion apps remApps with
    | false =>
      rw [sm_main_run_eq_Wf ha hwA]
      have hnoex : ¬ ∃ e ∈ apps.map (fun a => SmEvent.deleteAppCall a (appOk a)) ++
          [SmEvent.waitApps false], isProfileDeleteCall e = true := by
        intro hex
        rcases (exists_profile_append_iff _ _).mp hex with h | h
        · exact no_profile_in_appEvents apps appOk h
        · exact no_profile_in_single (SmEvent.waitApps false) rfl h
      refine ⟨⟨fun hex => absurd hex hnoex, ?_⟩, fun hex => absurd hex hnoex⟩
      rintro ⟨-, -, h3, -⟩
      exact absurd (h3 hane) Bool.false_ne_true
    | true =>
      cases hs : spaces.isEmpty with
      | true =>
        have hse : spaces = [] := List.isEmpty_iff.mp hs
        rw [sm_main_run_eq_WtB ha hwA hs]
        by_cases hall : (∀ a ∈ apps, appOk a = true) ∧ (∀ s ∈ spaces, spaceOk s = true)
        · rw [sm_finale_eq_profile hall]
          constructor
          · constructor
            · intro _
              exact ⟨hall.1, hall.2, fun _ => rfl, fun h => absurd hse h⟩
            · intro _
              exact ⟨SmEvent.deleteProfileCall profileOk,
                List.mem_append_right _ (List.mem_singleton_self _), rfl⟩
          · intro _
            refine ⟨apps.map (fun a => SmEvent.deleteAppCall a (appOk a)) ++
              [SmEvent.waitApps true], rfl, ?_, ?_⟩
            · intro a haa
              exact List.mem_append_left _ (List.mem_map_of_mem _ haa)
            · intro s hss
              rw [hse] at hss
              exact absurd hss (List.not_mem_nil s)
        · rw [sm_finale_eq_skipped hall]
          have hnoex : ¬ ∃ e ∈ apps.map (fun a => SmEvent.deleteAppCall a (appOk a)) ++
              [SmEvent.waitApps true] ++ [SmEvent.profileSkipped],
              isProfileDeleteCall e = true := by
            intro hex
            rcases (exists_profile_append_iff _ _).mp hex with h | h
            · rcases (exists_profile_append_iff _ _).mp h with h' | h'
              · exact no_profile_in_appEvents apps appOk h'
              · exact no_profile_in_single (SmEvent.waitApps true) rfl h'
            · exact no_profile_in_single SmEvent.profileSkipped rfl h
          refine ⟨⟨fun hex => absurd hex hnoex, ?_⟩, fun hex => absurd hex hnoex⟩
          rintro ⟨h1, h2, -, -⟩
          exact absurd ⟨h1, h2⟩ hall
      | false =>
        have hsne : spaces ≠ [] := List.isEmpty_eq_false.mp hs
        cases hwS : wait_for_spaces_deletion spaces remSpaces with
        | false =>
          rw [sm_main_run_eq_WtSf ha hwA hs hwS]
          have hnoex : ¬ ∃ e ∈ apps.map (fun a => SmEvent.deleteAppCall a (appOk a)) ++
              [SmEvent.waitApps true] ++
              spaces.map (fun s => SmEvent.deleteSpaceCall s (spaceOk s)) ++
              [SmEvent.waitSpaces false], isProfileDeleteCall e = true := by
            intro hex
            rcases (exists_profile_append_iff _ _).mp hex with h | h
            · rcases (exists_profile_append_iff _ _).mp h with h' | h'
              · rcases (exists_profile_append_iff _ _).mp h' with h'' | h''
                · exact no_profile_in_appEvents apps appOk h''
                · exact no_profile_in_single (SmEvent.waitApps true) rfl h''
              · exact no_profile_in_spaceEvents spaces spaceOk h'
            · exact no_profile_in_single (SmEvent.waitSpaces false) rfl h
          refine ⟨⟨fun hex => absurd hex hnoex, ?_⟩, fun hex => absurd hex hnoex⟩
          rintro ⟨-, -, -, h4⟩
          exact absurd (h4 hsne) Bool.false_ne_true
        | true =>
          rw [sm_main_run_eq_WtSt ha hwA hs hwS]
          by_cases hall : (∀ a ∈ apps, appOk a = true) ∧ (∀ s ∈ spaces, spaceOk s = true)
          · rw [sm_finale_eq_profile hall]
            constructor
            · constructor
              · intro _
                exact ⟨hall.1, hall.2, fun _ => rfl, fun _ => rfl⟩
              · intro _
                exact ⟨SmEvent.deleteProfileCall profileOk,
                  List.mem_append_right _ (List.mem_singleton_self _), rfl⟩
            · intro _
              refine ⟨apps.map (fun a => SmEvent.deleteAppCall a (appOk a)) ++
                [SmEvent.waitApps true] ++
                spaces.map (fun s => SmEvent.deleteSpaceCall s (spaceOk s)) ++
                [SmEvent.waitSpaces true], rfl, ?_, ?_⟩
              · intro a haa
                exact List.mem_append_left _ (List.mem_append_left _
                  (List.mem_append_left _ (List.mem_map_of_mem _ haa)))
              · intro s hss
                exact List.mem_append_left _ (List.mem_append_right _
                  (List.mem_map_of_mem _ hss))
          · rw [sm_finale_eq_skipped hall]
            have hnoex : ¬ ∃ e ∈ apps.map (fun a => SmEvent.deleteAppCall a (appOk a)) ++
                [SmEvent.waitApps true] ++
                spaces.map (fun s => SmEvent.deleteSpaceCall s (spaceOk s)) ++
                [SmEvent.waitSpaces true] ++ [SmEvent.profileSkipped],
                isProfileDeleteCall e = true := by
              intro hex
              rcases (exists_profile_append_iff _ _).mp hex with h | h
              · rcases (exists_profile_append_iff _ _).mp h with h' | h'
                · rcases (exists_profile_append_iff _ _).mp h' with h'' | h''
                  · rcases (exists_profile_append_iff _ _).mp h'' with h3 | h3
                    · exact no_profile_in_appEvents apps appOk h3
                    · exact no_profile_in_single (SmEvent.waitApps true) rfl h3
                  · exact no_profile_in_spaceEvents spaces spaceOk h''
                · exact no_profile_in_single (SmEvent.waitSpaces true) rfl h'
              · exact no_profile_in_single SmEvent.profileSkipped rfl h
            refine ⟨⟨fun hex => absurd hex hnoex, ?_⟩, fun hex => absurd hex hnoex⟩
            rintro ⟨h1, h2, -, -⟩
            exact absurd ⟨h1, h2⟩ hall

/-- C3 witness: a run with one app and one space, all child deletes
succeeding and both waits completing, where the parent delete call happens
and is last. -/
theorem sm_parent_deleted_iff_children_succeeded_witness :
    ∃ e ∈ sm_main_run ["a1"] ["s1"] (fun _ => true) (fun _ => true)
      (fun _ => []) (fun _ => []) true, isProfileDeleteCall e = true :=
  ((sm_parent_deleted_iff_children_succeeded ["a1"] ["s1"] (fun _ => true) (fun _ => true)
      (fun _ => []) (fun _ => []) true).1).mpr
    ⟨by decide, by decide, fun _ => by decide, fun _ => by decide⟩
